import Mathlib

/-!
Verification of the network-monitor ICMP ping client.

This file shallow-embeds the core of `src/client/src/main.rs` and
`src/client/src/config.rs`:

* the `IcmpEchoMessage` codec (`new`, `populate_checksum`, `serialize`,
  `from`), with bytes as `Nat` values below 256, machine integers as `Nat`
  with explicit truncation where the Rust code truncates, and `unwrap`
  panics as `Option.none`;
* the bounded per-host time series (`PingData.add_entry`) with the
  `BTreeMap` modelled as a key-sorted association list;
* the reply-matching receive loop and the duration bookkeeping of
  `repeatedly_ping`, with instants as abstract millisecond counts;
* the sleep computation between probes, with `chrono` instants as `Int`
  and the fallible `to_std` conversion as an `Option`.

Theorems about these definitions settle the specification claims.
-/

set_option autoImplicit false

namespace NetworkMonitor

/-! ## Configuration constants (src/client/src/config.rs) -/

/-- Rust: `pub const SEC_BETWEEN_PINGS: u64 = 5;` -/
def SEC_BETWEEN_PINGS : Nat := 5

/-- Rust: `pub const PING_TIMEOUT_MSEC: u64 = 1_000;` -/
def PING_TIMEOUT_MSEC : Nat := 1000

/-- Rust: `pub const MAX_ENTRIES_SAVED: usize = 30 * 24 * (60 / SEC_BETWEEN_PINGS as usize);` -/
def MAX_ENTRIES_SAVED : Nat := 30 * 24 * (60 / SEC_BETWEEN_PINGS)

/-- Rust: `const IP_HEADER_SIZE: usize = 20;` (src/client/src/main.rs) -/
def IP_HEADER_SIZE : Nat := 20

/-! ## The ICMP echo message codec (struct IcmpEchoMessage) -/

/-- The `IcmpEchoMessage` struct. Fields are machine integers modelled as
`Nat` (u8 for `msg_type`/`code`, u16 for the three 16-bit fields); `data`
models the `[u8; 56]` payload as a list of byte values. -/
structure IcmpEchoMessage where
  msg_type : Nat
  code : Nat
  checksum : Nat
  identifier : Nat
  sequence_number : Nat
  data : List Nat
deriving DecidableEq

/-- The payload filled in by `IcmpEchoMessage::new`:
`for i in 0..56 { message.data[i] = 0xFF - i as u8; }`. -/
def icmpDataFill : List Nat := (List.range 56).map (fun i => 255 - i)

/-- High byte of a u16 in big-endian order: `x.to_be_bytes()[0]`. -/
def beHi (x : Nat) : Nat := x / 256 % 256

/-- Low byte of a u16 in big-endian order: `x.to_be_bytes()[1]`. -/
def beLo (x : Nat) : Nat := x % 256

/-- Rust `IcmpEchoMessage::serialize`: marshal into a 64-byte big-endian
buffer (type, code, checksum, identifier, sequence number, then the 56
payload bytes). -/
def IcmpEchoMessage.serialize (m : IcmpEchoMessage) : List Nat :=
  m.msg_type :: m.code ::
  beHi m.checksum :: beLo m.checksum ::
  beHi m.identifier :: beLo m.identifier ::
  beHi m.sequence_number :: beLo m.sequence_number ::
  m.data

/-- The 16-bit big-endian word sum taken by `populate_checksum`'s first
loop (`read_u16::<BigEndian>` until the cursor is empty). A trailing odd
byte is read as the high byte of a zero-padded word; the 64-byte messages
of this program never exercise that case. -/
def sum16 : List Nat → Nat
  | [] => 0
  | [b] => b * 256
  | b1 :: b2 :: rest => (b1 * 256 + b2) + sum16 rest

/-- The carry-folding loop of `populate_checksum`:
`while (sum >> 16) > 0 { sum = (sum & 0xFFFF) + (sum >> 16); }`. -/
def foldCarry (s : Nat) : Nat :=
  if _h : s < 65536 then s else foldCarry (s % 65536 + s / 65536)
termination_by s
decreasing_by omega

/-- The checksum computed by `populate_checksum` from a serialized buffer:
fold the word sum, take the u32 bitwise complement (`!sum`), truncate to
u16 (`sum as u16`). -/
def checksumOf (bytes : List Nat) : Nat :=
  (4294967295 - foldCarry (sum16 bytes)) % 65536

/-- Rust `IcmpEchoMessage::new`: build an Echo Request (type 8, code 0)
with the fixed payload pattern, then `populate_checksum`, which serializes
the draft (whose checksum field is still 0) and stores the computed
checksum. -/
def IcmpEchoMessage.new (identifier sequence_number : Nat) : IcmpEchoMessage :=
  let draft : IcmpEchoMessage :=
    { msg_type := 8
      code := 0
      checksum := 0
      identifier := identifier
      sequence_number := sequence_number
      data := icmpDataFill }
  { draft with checksum := checksumOf draft.serialize }

/-- Cursor read of one u8; `None` models the `unwrap` panic on an
exhausted cursor. -/
def readU8 : List Nat → Option (Nat × List Nat)
  | [] => none
  | b :: rest => some (b, rest)

/-- Cursor read of one big-endian u16; `None` models the `unwrap` panic
when fewer than two bytes remain. -/
def readU16BE : List Nat → Option (Nat × List Nat)
  | b1 :: b2 :: rest => some (b1 * 256 + b2, rest)
  | _ => none

/-- The data-loop of `IcmpEchoMessage::from`: read `n` bytes one `read_u8`
at a time; `None` models the `unwrap` panic when the cursor runs dry. -/
def readBytes : Nat → List Nat → Option (List Nat × List Nat)
  | 0, rest => some ([], rest)
  | _ + 1, [] => none
  | n + 1, b :: rest => (readBytes n rest).map (fun p => (b :: p.1, p.2))

/-- Rust `IcmpEchoMessage::from`: unmarshal from a big-endian buffer.
Each fallible cursor read is `unwrap`ped in the source, so any shortfall
is a panic, modelled as `none`. Bytes beyond the 64 consumed are ignored. -/
def IcmpEchoMessage.fromBytes (buf_be : List Nat) : Option IcmpEchoMessage :=
  match readU8 buf_be with
  | none => none
  | some (t, r1) =>
  match readU8 r1 with
  | none => none
  | some (c, r2) =>
  match readU16BE r2 with
  | none => none
  | some (ck, r3) =>
  match readU16BE r3 with
  | none => none
  | some (idf, r4) =>
  match readU16BE r4 with
  | none => none
  | some (sq, r5) =>
  match readBytes 56 r5 with
  | none => none
  | some (d, _) =>
    some { msg_type := t
           code := c
           checksum := ck
           identifier := idf
           sequence_number := sq
           data := d }

/-! ## The bounded time-series store (struct PingData) -/

/-- One host's `BTreeMap<DateTime<Utc>, Duration>` modelled as an
association list of (timestamp, duration) pairs kept sorted by strictly
increasing timestamp; durations and timestamps are abstract `Nat` ticks. -/
abbrev Series := List (Nat × Nat)

/-- Sorted-map insertion: the effect of `BTreeMap::insert` on the sorted
entry list — place the new pair at its key position, replacing an existing
pair with an equal key. -/
def btreeInsert (k v : Nat) : Series → Series
  | [] => [(k, v)]
  | (k', v') :: rest =>
    if k < k' then (k, v) :: (k', v') :: rest
    else if k = k' then (k, v) :: rest
    else (k', v') :: btreeInsert k v rest

/-- The effect of `BTreeMap::pop_first` on the sorted entry list: remove
the smallest-key entry, i.e. the head. -/
def popFirst : Series → Series
  | [] => []
  | _ :: rest => rest

/-- Lookup of a timestamp's duration in a series (the `BTreeMap` read
view used to observe entries). -/
def lookupSeries (t : Nat) : Series → Option Nat
  | [] => none
  | (k, v) :: rest => if k = t then some v else lookupSeries t rest

/-- The body of `PingData::add_entry` acting on one host's series:
`if ping_results.len() >= config::MAX_ENTRIES_SAVED { ping_results.pop_first(); }`
then `ping_results.insert(when, how_long)`. -/
def addEntrySeries (s : Series) (when how_long : Nat) : Series :=
  if MAX_ENTRIES_SAVED ≤ s.length then btreeInsert when how_long (popFirst s)
  else btreeInsert when how_long s

/-- Folding a list of samples into a series with repeated `add_entry`
calls, in order. -/
def addAllSeries (s : Series) (entries : List (Nat × Nat)) : Series :=
  entries.foldl (fun acc e => addEntrySeries acc e.1 e.2) s

/-- The `PingData` struct: the ordered hostname list and the outer
`BTreeMap<String, BTreeMap<..>>`, the latter modelled as an association
list from hostname to series. -/
structure PingData where
  hostnames_in_order : List String
  data : List (String × Series)
deriving DecidableEq

/-- Lookup of a hostname's series in the outer map (`self.data.get_mut`). -/
def alistLookup (k : String) : List (String × Series) → Option Series
  | [] => none
  | (k', v) :: rest => if k' = k then some v else alistLookup k rest

/-- In-place replacement of the series stored under a key, the effect of
mutating through `get_mut`. -/
def alistUpdate (k : String) (v : Series) : List (String × Series) → List (String × Series)
  | [] => []
  | (k', v') :: rest =>
    if k' = k then (k', v) :: rest else (k', v') :: alistUpdate k v rest

/-- Rust `PingData::add_entry`: fetch the host's series with
`get_mut(hostname).unwrap()` (the `unwrap` panic on an unregistered key is
`none`), evict the oldest entry if the series is full, insert the sample. -/
def PingData.add_entry (pd : PingData) (hostname : String) (when how_long : Nat) :
    Option PingData :=
  match alistLookup hostname pd.data with
  | none => none
  | some s =>
    some { pd with data := alistUpdate hostname (addEntrySeries s when how_long) pd.data }

/-! ## The receive loop of repeatedly_ping (lines 399-435) -/

/-- The per-candidate match test of the receive loop:
`response.msg_type == 0 && response.code == 0 && response.identifier == unique_threadlocal_id && response.sequence_number == sequence_number`. -/
def matchingResponse (uid seq : Nat) (m : IcmpEchoMessage) : Bool :=
  m.msg_type == 0 && m.code == 0 && m.identifier == uid && m.sequence_number == seq

/-- Processing of one successful `recv_from` result `Ok((size, _origin_addr))`:
slice the receive buffer to `recv_buf[IP_HEADER_SIZE..size]`, decode it
with `IcmpEchoMessage::from` (whose `unwrap` panic is `none`), and report
whether the candidate matches. The origin address is bound as
`_origin_addr` in the source and never inspected, which the unused
parameter mirrors. -/
def processCandidate (uid seq size _origin_addr : Nat) (buf : List Nat) : Option Bool :=
  match IcmpEchoMessage.fromBytes ((buf.take size).drop IP_HEADER_SIZE) with
  | none => none
  | some r => some (matchingResponse uid seq r)

/-- One receive event of the wait loop: the instant (in abstract
millisecond ticks) at which the `recv_from` call returns, and its result —
`none` for an `Err` (logged and retried) or `some (size, origin, buf)`
for a received packet of `size` bytes from address `origin`. -/
abbrev RecvEvent := Nat × Option (Nat × Nat × List Nat)

/-- The wait loop `while Utc::now() < deadline && !response_recvd`:
re-check the clock, perform one receive, update the clock to the event's
instant, stop on a matching candidate. Returns `(matched, now)` at exit;
`none` models a decode panic killing the thread. The event list carries
the outcomes of the successive `recv_from` calls. -/
def recvLoop (uid seq deadline : Nat) : Nat → List RecvEvent → Option (Bool × Nat)
  | now, [] => some (false, now)
  | now, (t, res) :: rest =>
    if now < deadline then
      match res with
      | none => recvLoop uid seq deadline t rest
      | some (size, origin, buf) =>
        match processCandidate uid seq size origin buf with
        | none => none
        | some true => some (true, t)
        | some false => recvLoop uid seq deadline t rest
    else some (false, now)

/-- One probe iteration's recorded outcome (lines 386-435): wait with
deadline `start_time + ping_timeout`, then record
`ping_duration = Utc::now() - start_time`. Returns the match flag and the
recorded duration. -/
def pingIterationResult (uid seq start timeout : Nat) (events : List RecvEvent) :
    Option (Bool × Nat) :=
  (recvLoop uid seq (start + timeout) start events).map (fun r => (r.1, r.2 - start))

/-- The display marker of the web UI (line 594):
`duration >= Duration::from_millis(config::PING_TIMEOUT_MSEC)` puts the
row in the red `TimedOut` class. -/
def timedOutClass (durationMs : Nat) : Bool := PING_TIMEOUT_MSEC ≤ durationMs

/-! ## Sequence numbers and inter-probe sleeping (lines 344, 385, 436-442) -/

/-- The per-iteration update `sequence_number += 1` on a `u16`, with
two's-complement wrap-around on overflow. -/
def sequenceSucc (s : Nat) : Nat := (s + 1) % 65536

/-- The sequence number after `n` iterations of the probe loop, starting
from the initial `let mut sequence_number: u16 = 0`; the n-th probe sends
`sequenceAt n`. -/
def sequenceAt : Nat → Nat
  | 0 => 0
  | n + 1 => sequenceSucc (sequenceAt n)

/-- Rust `start_time + chrono_Duration::seconds(config::SEC_BETWEEN_PINGS as i64)`:
the next probe instant, with `chrono` instants as `Int` second counts. -/
def nextPingTime (start : Int) : Int := start + (SEC_BETWEEN_PINGS : Int)

/-- The `chrono::Duration::to_std` conversion: fails (is `none`, an
`unwrap` panic site) exactly on negative durations. -/
def durationToStd (d : Int) : Option Nat := if d < 0 then none else some d.toNat

/-- The tail of the probe loop (lines 436-442): sleep for
`(next_ping_time - cur_time).to_std().unwrap()` when `next_ping_time > cur_time`,
otherwise skip sleeping. The outer `none` is the skip; the inner `Option`
is the fallible conversion. -/
def sleepStep (start cur : Int) : Option (Option Nat) :=
  if cur < nextPingTime start then some (durationToStd (nextPingTime start - cur))
  else none

/-! ## Concrete inputs used by witnesses and counterexamples -/

/-- A run of MAX_ENTRIES_SAVED + 1 samples with strictly increasing
timestamps (timestamp i, duration 0). -/
def bigSample : List (Nat × Nat) := (List.range (MAX_ENTRIES_SAVED + 1)).map (fun i => (i, 0))

/-- A receive buffer holding a 64-byte ICMP Echo Reply (type 0, code 0,
checksum 0, identifier 7, sequence number 3, zero payload) behind a
20-byte IP header, followed by 16 extra bytes, 100 bytes in all. -/
def replyBuf100 : List Nat :=
  List.replicate 20 0 ++
  (0 :: 0 :: 0 :: 0 :: 0 :: 7 :: 0 :: 3 :: List.replicate 56 0) ++
  List.replicate 16 0

/-- An exactly 84-byte receive buffer holding the same Echo Reply behind
a 20-byte IP header. -/
def replyBuf84 : List Nat :=
  List.replicate 20 0 ++
  (0 :: 0 :: 0 :: 0 :: 0 :: 7 :: 0 :: 3 :: List.replicate 56 0)

/-- A two-host store used to exercise `PingData::add_entry`. -/
def pdExample : PingData :=
  { hostnames_in_order := ["a", "b"]
    data := [("a", []), ("b", [(1, 5)])] }

/-- The store `pdExample` after `add_entry("a", 1, 2)`. -/
def pdExampleAfter : PingData :=
  { hostnames_in_order := ["a", "b"]
    data := [("a", [(1, 2)]), ("b", [(1, 5)])] }

/-! ## Checksum lemmas -/

/-- The carry-folding loop always terminates with a value below 2^16. -/
theorem foldCarry_lt (s : Nat) : foldCarry s < 65536 := by
  induction s using Nat.strong_induction_on with
  | _ s ih =>
    rw [foldCarry]
    split
    · assumption
    · exact ih _ (by omega)

/-- Folding the carry back in preserves the value modulo 2^16 - 1. -/
theorem foldCarry_mod (s : Nat) : foldCarry s % 65535 = s % 65535 := by
  induction s using Nat.strong_induction_on with
  | _ s ih =>
    rw [foldCarry]
    split
    · rfl
    · rw [ih _ (by omega)]
      omega

/-- Folding a positive sum never reaches zero. -/
theorem foldCarry_pos : ∀ s : Nat, 0 < s → 0 < foldCarry s := by
  intro s
  induction s using Nat.strong_induction_on with
  | _ s ih =>
    intro hs
    rw [foldCarry]
    split
    · exact hs
    · exact ih _ (by omega) (by omega)

/-- The word sum of a serialized message, split into its header words and
the payload word sum. -/
theorem sum16_serialize (m : IcmpEchoMessage) :
    sum16 m.serialize =
      m.msg_type * 256 + m.code + m.checksum % 65536 + m.identifier % 65536 +
        m.sequence_number % 65536 + sum16 m.data := by
  simp only [IcmpEchoMessage.serialize, sum16, beHi, beLo]
  omega

/-- The word sum of the fixed 56-byte payload pattern. -/
theorem sum16_icmpDataFill : sum16 icmpDataFill = 1640660 := by decide

/-- The stored checksum is a 16-bit value. -/
theorem checksumOf_lt (bytes : List Nat) : checksumOf bytes < 65536 :=
  Nat.mod_lt _ (by norm_num)

/-- The u32 complement truncated to u16 is the 16-bit one's complement of
the folded sum. -/
theorem checksumOf_eq (bytes : List Nat) :
    checksumOf bytes = 65535 - foldCarry (sum16 bytes) := by
  have h := foldCarry_lt (sum16 bytes)
  unfold checksumOf
  omega

/-- Unfolding of `IcmpEchoMessage.new` into an explicit structure value. -/
theorem new_def (idf sq : Nat) :
    IcmpEchoMessage.new idf sq =
      { msg_type := 8
        code := 0
        checksum := checksumOf (IcmpEchoMessage.serialize
          { msg_type := 8, code := 0, checksum := 0, identifier := idf,
            sequence_number := sq, data := icmpDataFill })
        identifier := idf
        sequence_number := sq
        data := icmpDataFill } := rfl

/-- The word sum of the zero-checksum draft built by `new`. -/
theorem sum16_draft (idf sq : Nat) (hid : idf < 65536) (hsq : sq < 65536) :
    sum16 (IcmpEchoMessage.serialize
      { msg_type := 8, code := 0, checksum := 0, identifier := idf,
        sequence_number := sq, data := icmpDataFill }) = 1642708 + idf + sq := by
  rw [sum16_serialize]
  simp only [sum16_icmpDataFill]
  omega

/-- The word sum of the final serialized message built by `new`. -/
theorem sum16_serialize_new (idf sq : Nat) (hid : idf < 65536) (hsq : sq < 65536) :
    sum16 (IcmpEchoMessage.new idf sq).serialize =
      (1642708 + idf + sq) + (65535 - foldCarry (1642708 + idf + sq)) := by
  rw [new_def, sum16_serialize]
  simp only [sum16_icmpDataFill, checksumOf_eq, sum16_draft idf sq hid hsq]
  have h := foldCarry_lt (1642708 + idf + sq)
  omega

/-- C1: for every (identifier, sequence_number) pair, the 64-byte Echo
Request built by `IcmpEchoMessage::new` and serialized by `serialize`
satisfies the Internet-checksum invariant: summing all 16-bit big-endian
words of the final serialized message (including the stored checksum
field) in one's-complement arithmetic, folding any carry out of bit 16
back into the low 16 bits until no carry remains, yields 0xFFFF. -/
theorem checksum_invariant (idf sq : Nat) (hid : idf < 65536) (hsq : sq < 65536) :
    foldCarry (sum16 (IcmpEchoMessage.new idf sq).serialize) = 65535 := by
  rw [sum16_serialize_new idf sq hid hsq]
  have hlt0 : foldCarry (1642708 + idf + sq) < 65536 := foldCarry_lt _
  have hmod0 : foldCarry (1642708 + idf + sq) % 65535 = (1642708 + idf + sq) % 65535 :=
    foldCarry_mod _
  have hmod1 := foldCarry_mod
    ((1642708 + idf + sq) + (65535 - foldCarry (1642708 + idf + sq)))
  have hpos : 0 < foldCarry
      ((1642708 + idf + sq) + (65535 - foldCarry (1642708 + idf + sq))) :=
    foldCarry_pos _ (by omega)
  have hlt1 : foldCarry
      ((1642708 + idf + sq) + (65535 - foldCarry (1642708 + idf + sq))) < 65536 :=
    foldCarry_lt _
  omega

/-- Witness for C1 at identifier 1, sequence number 2. -/
theorem checksum_invariant_witness :
    foldCarry (sum16 (IcmpEchoMessage.new 1 2).serialize) = 65535 :=
  checksum_invariant 1 2 (by decide) (by decide)

/-- Reading exactly the length of a list consumes all of it. -/
theorem readBytes_full : ∀ l : List Nat, readBytes l.length l = some (l, []) := by
  intro l
  induction l with
  | nil => rfl
  | cons b rest ih =>
    simp [readBytes, ih]

/-- Decoding inverts serialization for any in-range message with a
56-byte payload. -/
theorem fromBytes_serialize (m : IcmpEchoMessage) (hck : m.checksum < 65536)
    (hid : m.identifier < 65536) (hsq : m.sequence_number < 65536)
    (hd : m.data.length = 56) :
    IcmpEchoMessage.fromBytes m.serialize = some m := by
  obtain ⟨t, c, ck, idf, sq, d⟩ := m
  simp only at hck hid hsq hd
  have hread : readBytes 56 d = some (d, []) := by
    rw [← hd]
    exact readBytes_full d
  simp only [IcmpEchoMessage.serialize, IcmpEchoMessage.fromBytes, readU8, readU16BE, hread,
    IcmpEchoMessage.mk.injEq, beHi, beLo, Option.some.injEq, true_and, and_true]
  omega

/-- C2: for all (identifier, sequence_number) pairs, decoding the
serialized bytes of the message built by `IcmpEchoMessage::new` with
`IcmpEchoMessage::from` reproduces the whole message: msg_type = 8,
code = 0, identifier, sequence number, the same 56-byte payload, and the
checksum stored at encode time. -/
theorem encode_decode_roundtrip (idf sq : Nat) (hid : idf < 65536) (hsq : sq < 65536) :
    IcmpEchoMessage.fromBytes (IcmpEchoMessage.new idf sq).serialize =
      some (IcmpEchoMessage.new idf sq) ∧
    (IcmpEchoMessage.new idf sq).msg_type = 8 ∧
    (IcmpEchoMessage.new idf sq).code = 0 ∧
    (IcmpEchoMessage.new idf sq).identifier = idf ∧
    (IcmpEchoMessage.new idf sq).sequence_number = sq ∧
    (IcmpEchoMessage.new idf sq).data = icmpDataFill ∧
    icmpDataFill.length = 56 := by
  refine ⟨?_, rfl, rfl, rfl, rfl, rfl, by decide⟩
  apply fromBytes_serialize
  · rw [new_def]
    exact checksumOf_lt _
  · exact hid
  · exact hsq
  · show icmpDataFill.length = 56
    decide

/-- Witness for C2 at identifier 3, sequence number 4. -/
theorem encode_decode_roundtrip_witness :
    IcmpEchoMessage.fromBytes (IcmpEchoMessage.new 3 4).serialize =
      some (IcmpEchoMessage.new 3 4) ∧
    (IcmpEchoMessage.new 3 4).msg_type = 8 ∧
    (IcmpEchoMessage.new 3 4).code = 0 ∧
    (IcmpEchoMessage.new 3 4).identifier = 3 ∧
    (IcmpEchoMessage.new 3 4).sequence_number = 4 ∧
    (IcmpEchoMessage.new 3 4).data = icmpDataFill ∧
    icmpDataFill.length = 56 :=
  encode_decode_roundtrip 3 4 (by decide) (by decide)

/-- Reading more bytes than remain fails (a panic at the `unwrap`). -/
theorem readBytes_none : ∀ (n : Nat) (l : List Nat), l.length < n → readBytes n l = none := by
  intro n
  induction n with
  | zero => intro l h; omega
  | succ n ih =>
    intro l h
    match l with
    | [] => rfl
    | b :: rest =>
      have : readBytes n rest = none := ih rest (by simp at h; omega)
      simp [readBytes, this]

/-- Reading `n` bytes from a long enough list takes the first `n` and
leaves the rest. -/
theorem readBytes_split : ∀ (n : Nat) (l : List Nat), n ≤ l.length →
    readBytes n l = some (l.take n, l.drop n) := by
  intro n
  induction n with
  | zero => intro l _; simp [readBytes]
  | succ n ih =>
    intro l h
    match l with
    | [] => simp at h
    | b :: rest =>
      have : readBytes n rest = some (rest.take n, rest.drop n) := ih rest (by simp at h ⊢; omega)
      simp [readBytes, this]

/-- C5 counterexample: at the concrete 10-byte input of zeros the decoder
aborts — `IcmpEchoMessage::from` hits a failed read and panics at its
`unwrap` (modelled as `none`). It does not return an error value; in
particular no `DecodeError` type exists anywhere in the code, so the
claimed `DecodeError::Truncated` result is impossible. -/
theorem decode_truncated_counterexample :
    IcmpEchoMessage.fromBytes (List.replicate 10 0) = none := by decide

/-- C5 amended: for every input of fewer than 64 bytes, decoding panics
at an `unwrap` on a failed cursor read (`none`) rather than returning a
structured error, and for inputs of at least 64 bytes it parses the
fields successfully. -/
theorem decode_length_behavior :
    (∀ buf : List Nat, buf.length < 64 → IcmpEchoMessage.fromBytes buf = none) ∧
    (∀ buf : List Nat, 64 ≤ buf.length → ∃ m, IcmpEchoMessage.fromBytes buf = some m) := by
  constructor
  · intro buf h
    rcases buf with _ | ⟨b0, _ | ⟨b1, _ | ⟨b2, _ | ⟨b3, _ | ⟨b4, _ | ⟨b5, _ | ⟨b6, _ | ⟨b7, rest⟩⟩⟩⟩⟩⟩⟩⟩
    · rfl
    · rfl
    · rfl
    · rfl
    · rfl
    · rfl
    · rfl
    · rfl
    · have hr : readBytes 56 rest = none := by
        apply readBytes_none
        simp at h
        omega
      simp only [IcmpEchoMessage.fromBytes, readU8, readU16BE, hr]
  · intro buf h
    rcases buf with _ | ⟨b0, _ | ⟨b1, _ | ⟨b2, _ | ⟨b3, _ | ⟨b4, _ | ⟨b5, _ | ⟨b6, _ | ⟨b7, rest⟩⟩⟩⟩⟩⟩⟩⟩
    all_goals simp at h
    have hr : readBytes 56 rest = some (rest.take 56, rest.drop 56) := by
      apply readBytes_split
      omega
    exact ⟨{ msg_type := b0, code := b1, checksum := b2 * 256 + b3,
             identifier := b4 * 256 + b5, sequence_number := b6 * 256 + b7,
             data := rest.take 56 },
           by simp only [IcmpEchoMessage.fromBytes, readU8, readU16BE, hr]⟩

/-- Witness for C5 amended: a 5-byte input panics; a 64-byte input of
zeros decodes successfully. -/
theorem decode_length_behavior_witness :
    IcmpEchoMessage.fromBytes (List.replicate 5 0) = none ∧
    ∃ m, IcmpEchoMessage.fromBytes (List.replicate 64 0) = some m :=
  ⟨decode_length_behavior.1 (List.replicate 5 0) (by decide),
   decode_length_behavior.2 (List.replicate 64 0) (by decide)⟩

/-! ## Time-series store lemmas -/

/-- An insertion grows the entry list by at most one. -/
theorem length_btreeInsert_le (k v : Nat) :
    ∀ s : Series, (btreeInsert k v s).length ≤ s.length + 1 := by
  intro s
  induction s with
  | nil => simp [btreeInsert]
  | cons e rest ih =>
    obtain ⟨k', v'⟩ := e
    simp only [btreeInsert]
    split
    · simp
    · split
      · simp
      · simp only [List.length_cons]
        omega

/-- Popping the first entry shortens the list by one. -/
theorem length_popFirst (s : Series) : (popFirst s).length = s.length - 1 := by
  cases s <;> simp [popFirst]

/-- Membership in the popped list implies membership in the original. -/
theorem mem_popFirst {x : Nat × Nat} {s : Series} (h : x ∈ popFirst s) : x ∈ s := by
  cases s with
  | nil => simp [popFirst] at h
  | cons e rest => simp [popFirst] at h; simp [h]

/-- Inserting a key above every key in the list appends at the end. -/
theorem btreeInsert_append (k v : Nat) :
    ∀ s : Series, (∀ e ∈ s, e.1 < k) → btreeInsert k v s = s ++ [(k, v)] := by
  intro s
  induction s with
  | nil => intro _; rfl
  | cons e rest ih =>
    intro hall
    obtain ⟨k', v'⟩ := e
    have hk' : k' < k := hall (k', v') (by simp)
    simp only [btreeInsert]
    rw [if_neg (by omega), if_neg (by omega), ih]
    · simp
    · intro x hx
      exact hall x (by simp [hx])

/-- Every `add_entry` call on a series within the size bound leaves it
within the size bound. -/
theorem addEntrySeries_length_le (s : Series) (w d : Nat)
    (h : s.length ≤ MAX_ENTRIES_SAVED) :
    (addEntrySeries s w d).length ≤ MAX_ENTRIES_SAVED := by
  have hM : 1 ≤ MAX_ENTRIES_SAVED := by decide
  unfold addEntrySeries
  split
  · have h1 := length_btreeInsert_le w d (popFirst s)
    have h2 := length_popFirst s
    omega
  · have h1 := length_btreeInsert_le w d s
    omega

/-- Folding strictly increasing samples into a series keeps exactly the
most recent MAX_ENTRIES_SAVED of the accumulated entries. -/
theorem addAll_increasing : ∀ (entries : List (Nat × Nat)) (s : Series),
    s.length ≤ MAX_ENTRIES_SAVED →
    (∀ e ∈ s, ∀ e2 ∈ entries, e.1 < e2.1) →
    List.Pairwise (fun a b : Nat × Nat => a.1 < b.1) entries →
    addAllSeries s entries =
      (s ++ entries).drop (s.length + entries.length - MAX_ENTRIES_SAVED) := by
  intro entries
  induction entries with
  | nil =>
    intro s hlen _ _
    have h0 : s.length + ([] : List (Nat × Nat)).length - MAX_ENTRIES_SAVED = 0 := by
      simp
      omega
    rw [h0]
    simp [addAllSeries]
  | cons e rest ih =>
    intro s hlen hall hpw
    have hM : 1 ≤ MAX_ENTRIES_SAVED := by decide
    have hstep : addAllSeries s (e :: rest) = addAllSeries (addEntrySeries s e.1 e.2) rest := rfl
    have hpw_head : ∀ y ∈ rest, e.1 < y.1 := (List.pairwise_cons.mp hpw).1
    have hpw_rest : List.Pairwise (fun a b : Nat × Nat => a.1 < b.1) rest :=
      (List.pairwise_cons.mp hpw).2
    by_cases hMle : MAX_ENTRIES_SAVED ≤ s.length
    · have hs' : addEntrySeries s e.1 e.2 = popFirst s ++ [(e.1, e.2)] := by
        unfold addEntrySeries
        rw [if_pos hMle]
        apply btreeInsert_append
        intro x hx
        exact hall x (mem_popFirst hx) e (by simp)
      obtain ⟨a, t, rfl⟩ : ∃ a t, s = a :: t := by
        cases s with
        | nil => simp at hMle; omega
        | cons a t => exact ⟨a, t, rfl⟩
      have hpop : popFirst (a :: t) = t := rfl
      have hlen_s : t.length + 1 = MAX_ENTRIES_SAVED := by
        have := le_antisymm hlen hMle
        simpa using this
      have hlen' : (addEntrySeries (a :: t) e.1 e.2).length ≤ MAX_ENTRIES_SAVED := by
        rw [hs', hpop]
        simp
        omega
      have hall' : ∀ x ∈ addEntrySeries (a :: t) e.1 e.2, ∀ y ∈ rest, x.1 < y.1 := by
        rw [hs', hpop]
        intro x hx y hy
        rcases List.mem_append.mp hx with hx1 | hx2
        · exact hall x (by simp [hx1]) y (by simp [hy])
        · have hx2' : x = (e.1, e.2) := by simpa using hx2
          rw [hx2']
          exact hpw_head y hy
      have hih := ih (addEntrySeries (a :: t) e.1 e.2) hlen' hall' hpw_rest
      rw [hstep, hih, hs', hpop]
      have h1 : List.length (t ++ [(e.1, e.2)]) + rest.length - MAX_ENTRIES_SAVED = rest.length := by
        simp
        omega
      have h2 : (a :: t).length + (e :: rest).length - MAX_ENTRIES_SAVED = rest.length + 1 := by
        simp
        omega
      rw [h1, h2, List.cons_append, List.drop_succ_cons]
      exact congrArg (List.drop rest.length) (by simp)
    · have hs' : addEntrySeries s e.1 e.2 = s ++ [(e.1, e.2)] := by
        unfold addEntrySeries
        rw [if_neg hMle]
        apply btreeInsert_append
        intro x hx
        exact hall x hx e (by simp)
      have hlen' : (addEntrySeries s e.1 e.2).length ≤ MAX_ENTRIES_SAVED := by
        rw [hs']
        simp
        omega
      have hall' : ∀ x ∈ addEntrySeries s e.1 e.2, ∀ y ∈ rest, x.1 < y.1 := by
        rw [hs']
        intro x hx y hy
        rcases List.mem_append.mp hx with hx1 | hx2
        · exact hall x (by simp [hx1]) y (by simp [hy])
        · have hx2' : x = (e.1, e.2) := by simpa using hx2
          rw [hx2']
          exact hpw_head y hy
      have hih := ih (addEntrySeries s e.1 e.2) hlen' hall' hpw_rest
      rw [hstep, hih, hs']
      have h1 : List.length (s ++ [(e.1, e.2)]) + rest.length - MAX_ENTRIES_SAVED =
          s.length + (e :: rest).length - MAX_ENTRIES_SAVED := by
        simp
        omega
      rw [h1]
      exact congrArg (List.drop (s.length + (e :: rest).length - MAX_ENTRIES_SAVED)) (by simp)
/-- C3: for every registered key, each `add_entry` call keeps the series
size at most the configured maximum MAX_ENTRIES_SAVED, and after
inserting MAX_ENTRIES_SAVED + k samples (k ≥ 1) with strictly increasing
timestamps into an initially empty series, the series holds exactly the
MAX_ENTRIES_SAVED most recent samples — the (k+1)-th through
(MAX_ENTRIES_SAVED+k)-th inserted ones, the oldest k having been
evicted. -/
theorem add_entry_eviction_bound :
    (∀ (s : Series) (w d : Nat), s.length ≤ MAX_ENTRIES_SAVED →
      (addEntrySeries s w d).length ≤ MAX_ENTRIES_SAVED) ∧
    (∀ (entries : List (Nat × Nat)) (k : Nat), 1 ≤ k →
      entries.length = MAX_ENTRIES_SAVED + k →
      List.Pairwise (fun a b : Nat × Nat => a.1 < b.1) entries →
      addAllSeries [] entries = entries.drop k ∧
      (addAllSeries [] entries).length = MAX_ENTRIES_SAVED) := by
  constructor
  · intro s w d h
    exact addEntrySeries_length_le s w d h
  · intro entries k hk hlen hpw
    have h := addAll_increasing entries [] (by simp) (by simp) hpw
    simp only [List.nil_append, List.length_nil, Nat.zero_add] at h
    rw [hlen] at h
    have hidx : MAX_ENTRIES_SAVED + k - MAX_ENTRIES_SAVED = k := by omega
    rw [hidx] at h
    refine ⟨h, ?_⟩
    rw [h, List.length_drop, hlen]
    omega

/-- Witness for C3: inserting MAX_ENTRIES_SAVED + 1 strictly increasing
samples leaves exactly the last MAX_ENTRIES_SAVED, the first one evicted. -/
theorem add_entry_eviction_bound_witness :
    addAllSeries [] bigSample = bigSample.drop 1 ∧
    (addAllSeries [] bigSample).length = MAX_ENTRIES_SAVED :=
  add_entry_eviction_bound.2 bigSample 1 (by decide)
    (by simp [bigSample])
    (by
      simp only [bigSample, List.pairwise_map]
      exact List.pairwise_lt_range _)

/-- Inserting under one key leaves lookups of any other key unchanged. -/
theorem lookupSeries_btreeInsert_ne (t w d : Nat) (hne : t ≠ w) :
    ∀ s : Series, lookupSeries t (btreeInsert w d s) = lookupSeries t s := by
  intro s
  induction s with
  | nil =>
    simp only [btreeInsert, lookupSeries]
    rw [if_neg (fun hh => hne hh.symm)]
  | cons e rest ih =>
    obtain ⟨k', v'⟩ := e
    simp only [btreeInsert]
    split
    · simp only [lookupSeries]
      rw [if_neg (fun hh => hne hh.symm)]
    · split
      · rename_i hkeq
        simp only [lookupSeries]
        rw [if_neg (fun hh => hne hh.symm), if_neg (show ¬_ by omega)]
      · simp only [lookupSeries, ih]

/-- A key absent from every entry looks up to nothing. -/
theorem lookupSeries_eq_none_of_forall (t : Nat) :
    ∀ s : Series, (∀ e ∈ s, e.1 ≠ t) → lookupSeries t s = none := by
  intro s
  induction s with
  | nil => intro _; rfl
  | cons e rest ih =>
    intro hall
    obtain ⟨k', v'⟩ := e
    simp only [lookupSeries]
    rw [if_neg (hall (k', v') (by simp)), ih]
    intro x hx
    exact hall x (by simp [hx])

/-- C8 counterexample: the series holds duration 10 at timestamp 5; a
later `add_entry` call with the same timestamp 5 replaces that entry's
duration with 20 in place (`BTreeMap::insert` overwrites an existing
key), so an already-inserted entry is mutated by a later call. -/
theorem add_entry_mutates_counterexample :
    lookupSeries 5 [(5, 10)] = some 10 ∧
    addEntrySeries [(5, 10)] 5 20 = [(5, 20)] ∧
    lookupSeries 5 (addEntrySeries [(5, 10)] 5 20) = some 20 := by decide

/-- C8 amended: a later `add_entry` call whose timestamp differs from a
stored entry's timestamp never changes that entry's duration: the stored
entry either survives with the same duration, or — when the series is
full — it is the single oldest entry and is evicted whole. Only an
`add_entry` call reusing an existing timestamp mutates an entry. -/
theorem add_entry_no_mutation (s : Series) (t dur w d : Nat)
    (hs : List.Pairwise (fun a b : Nat × Nat => a.1 < b.1) s)
    (hl : lookupSeries t s = some dur) (hne : t ≠ w) :
    lookupSeries t (addEntrySeries s w d) = some dur ∨
    (MAX_ENTRIES_SAVED ≤ s.length ∧ s.head?.map Prod.fst = some t ∧
      lookupSeries t (addEntrySeries s w d) = none) := by
  unfold addEntrySeries
  by_cases hfull : MAX_ENTRIES_SAVED ≤ s.length
  · rw [if_pos hfull]
    cases s with
    | nil => simp [lookupSeries] at hl
    | cons e rest =>
      obtain ⟨k0, v0⟩ := e
      have hprest : ∀ x ∈ rest, k0 < x.1 := by
        intro x hx
        exact (List.pairwise_cons.mp hs).1 x hx
      have hpop : popFirst ((k0, v0) :: rest) = rest := rfl
      by_cases hk0 : k0 = t
      · right
        refine ⟨hfull, by simp [hk0], ?_⟩
        rw [hpop, lookupSeries_btreeInsert_ne t w d hne rest]
        apply lookupSeries_eq_none_of_forall
        intro x hx
        have := hprest x hx
        omega
      · left
        have hl' : lookupSeries t ((k0, v0) :: rest) = lookupSeries t rest := by
          simp only [lookupSeries]
          rw [if_neg hk0]
        rw [hl'] at hl
        rw [hpop, lookupSeries_btreeInsert_ne t w d hne rest]
        exact hl
  · rw [if_neg hfull]
    left
    rw [lookupSeries_btreeInsert_ne t w d hne s]
    exact hl

/-- Witness for C8 amended: adding timestamp 3 to a two-entry series
leaves timestamp 1's duration untouched. -/
theorem add_entry_no_mutation_witness :
    lookupSeries 1 (addEntrySeries [(1, 10), (2, 20)] 3 30) = some 10 ∨
    (MAX_ENTRIES_SAVED ≤ ([(1, 10), (2, 20)] : Series).length ∧
      ([(1, 10), (2, 20)] : Series).head?.map Prod.fst = some 1 ∧
      lookupSeries 1 (addEntrySeries [(1, 10), (2, 20)] 3 30) = none) :=
  add_entry_no_mutation [(1, 10), (2, 20)] 1 10 3 30 (by decide) (by decide) (by decide)

/-- Updating one hostname's series leaves every other hostname's lookup
unchanged. -/
theorem alistLookup_update_ne (h k : String) (hne : h ≠ k) (v : Series) :
    ∀ l : List (String × Series), alistLookup h (alistUpdate k v l) = alistLookup h l := by
  intro l
  induction l with
  | nil => rfl
  | cons e rest ih =>
    obtain ⟨k', v'⟩ := e
    by_cases h1 : k' = k
    · have h3 : ¬k = h := fun hh => hne hh.symm
      simp [alistUpdate, h1, alistLookup, h3]
    · by_cases h2 : k' = h
      · simp [alistUpdate, h1, alistLookup, h2, hne]
      · simp [alistUpdate, h1, alistLookup, h2, ih]

/-- C10: a successful `add_entry(key, timestamp, duration)` call on a
registered key modifies at most that key's series: the
`hostnames_in_order` list and the series of every other registered key
are exactly the same before and after the call. -/
theorem add_entry_frame (pd : PingData) (host : String) (w d : Nat) (pd' : PingData)
    (h : pd.add_entry host w d = some pd') :
    pd'.hostnames_in_order = pd.hostnames_in_order ∧
    ∀ h2 : String, h2 ≠ host → alistLookup h2 pd'.data = alistLookup h2 pd.data := by
  unfold PingData.add_entry at h
  cases hl : alistLookup host pd.data with
  | none =>
    rw [hl] at h
    simp at h
  | some s =>
    rw [hl] at h
    simp only [Option.some.injEq] at h
    constructor
    · rw [← h]
    · intro h2 hne
      rw [← h]
      exact alistLookup_update_ne h2 host hne _ pd.data

/-- Witness for C10: adding a sample for host "a" in the two-host store
leaves the hostname list and host "b"'s series unchanged. -/
theorem add_entry_frame_witness :
    pdExampleAfter.hostnames_in_order = pdExample.hostnames_in_order ∧
    alistLookup "b" pdExampleAfter.data = alistLookup "b" pdExample.data := by
  have h := add_entry_frame pdExample "a" 1 2 pdExampleAfter (by decide)
  exact ⟨h.1, h.2 "b" (by decide)⟩

/-- C4 counterexample: the in-loop validation accepts a candidate whose
received byte count is 100, not the expected 84 = IP_HEADER_SIZE + 64,
and whose origin address (999) plays no role at all — the source binds it
as `_origin_addr` and never compares it to the destination. The claim
says a candidate failing the size or source check is discarded; this one
ends the wait as Matched. -/
theorem reply_validation_counterexample :
    processCandidate 7 3 100 999 replyBuf100 = some true ∧
    100 ≠ IP_HEADER_SIZE + 64 := by
  constructor
  · decide
  · decide

/-- C4 amended: the receive loop validates a decodable candidate against
exactly four conditions — decoded type == 0, code == 0, identifier
matches this loop's identifier, sequence number matches the just-sent
sequence number; a candidate failing any of them is discarded and
receiving is retried, and one passing all four ends the wait as Matched.
The source address and the received byte count are not checked in the
loop (the byte count only bounds the decoded slice); they are filtered
earlier, by the kernel BPF program installed at socket setup. -/
theorem reply_validation_amended (uid seq size origin : Nat) (buf : List Nat)
    (m : IcmpEchoMessage)
    (h : IcmpEchoMessage.fromBytes ((buf.take size).drop IP_HEADER_SIZE) = some m) :
    processCandidate uid seq size origin buf = some true ↔
      (m.msg_type = 0 ∧ m.code = 0 ∧ m.identifier = uid ∧ m.sequence_number = seq) := by
  unfold processCandidate
  rw [h]
  simp [matchingResponse]
  tauto

/-- Witness for C4 amended at the concrete 100-byte candidate. -/
theorem reply_validation_amended_witness :
    processCandidate 7 3 100 999 replyBuf100 = some true ↔
      ((0 : Nat) = 0 ∧ (0 : Nat) = 0 ∧ (7 : Nat) = 7 ∧ (3 : Nat) = 3) :=
  reply_validation_amended 7 3 100 999 replyBuf100
    { msg_type := 0, code := 0, checksum := 0, identifier := 7,
      sequence_number := 3, data := List.replicate 56 0 }
    (by decide)

/-- When the wait loop exits unmatched, the exit clock is past the
deadline, or the loop consumed nothing, or it stopped at the final
receive event's instant. -/
theorem recvLoop_false_cases (uid seq deadline : Nat) :
    ∀ (events : List RecvEvent) (now endT : Nat),
      recvLoop uid seq deadline now events = some (false, endT) →
      deadline ≤ endT ∨ (events = [] ∧ endT = now) ∨
        (∃ hne : events ≠ [], endT = (events.getLast hne).1) := by
  intro events
  induction events with
  | nil =>
    intro now endT h
    simp only [recvLoop, Option.some.injEq, Prod.mk.injEq, true_and] at h
    right
    left
    exact ⟨rfl, h.symm⟩
  | cons e rest ih =>
    intro now endT h
    obtain ⟨t, res⟩ := e
    by_cases hlt : now < deadline
    · have tailCases : recvLoop uid seq deadline t rest = some (false, endT) →
          deadline ≤ endT ∨ (∃ hne : (t, res) :: rest ≠ ([] : List RecvEvent), endT =
            (((t, res) :: rest).getLast hne).1) := by
        intro hr
        rcases ih t endT hr with h1 | ⟨h2, h3⟩ | ⟨hne2, h4⟩
        · exact Or.inl h1
        · refine Or.inr ⟨by simp, ?_⟩
          subst h2
          simpa using h3
        · refine Or.inr ⟨by simp, ?_⟩
          rw [List.getLast_cons hne2]
          exact h4
      cases res with
      | none =>
        have h' : recvLoop uid seq deadline t rest = some (false, endT) := by
          rw [← h]
          simp only [recvLoop]
          rw [if_pos hlt]
        rcases tailCases h' with h1 | h2
        · exact Or.inl h1
        · exact Or.inr (Or.inr h2)
      | some p =>
        obtain ⟨size, origin, buf⟩ := p
        have hred : recvLoop uid seq deadline now ((t, some (size, origin, buf)) :: rest) =
            (match processCandidate uid seq size origin buf with
             | none => none
             | some true => some (true, t)
             | some false => recvLoop uid seq deadline t rest) := by
          simp only [recvLoop]
          rw [if_pos hlt]
        rw [hred] at h
        cases hpc : processCandidate uid seq size origin buf with
        | none =>
          rw [hpc] at h
          simp at h
        | some b =>
          rw [hpc] at h
          cases b with
          | true => simp at h
          | false =>
            rcases tailCases h with h1 | h2
            · exact Or.inl h1
            · exact Or.inr (Or.inr h2)
    · have h' : recvLoop uid seq deadline now ((t, res) :: rest) = some (false, now) := by
        simp only [recvLoop]
        rw [if_neg hlt]
      rw [h'] at h
      simp only [Option.some.injEq, Prod.mk.injEq, true_and] at h
      left
      omega

/-- C6 counterexample: a probe whose matching reply is only processed at
1500 ms (the receive call started before the 1000 ms deadline and
returned late) records a Matched sample with duration 1500; a probe whose
deadline passes with no match can record the very same duration 1500.
The display rule `duration >= PING_TIMEOUT_MSEC` marks both rows
TimedOut, so the Matched sample carries exactly the marker a TimedOut
sample carries — the recorded duration is the measured elapsed time in
both cases, not a distinguishable sentinel. -/
theorem timeout_marker_counterexample :
    pingIterationResult 7 3 0 PING_TIMEOUT_MSEC [(1500, some (84, 0, replyBuf84))] =
      some (true, 1500) ∧
    pingIterationResult 7 3 0 PING_TIMEOUT_MSEC [(1500, none)] = some (false, 1500) ∧
    timedOutClass 1500 = true := by
  refine ⟨by decide, by decide, by decide⟩

/-- C6 amended: a TimedOut iteration (deadline passed with no match, the
receive events covering the deadline) records a duration of at least
PING_TIMEOUT_MSEC, which the display marks with the TimedOut class; but
this marker is an "at least timeout" value, not a sentinel — a Matched
iteration can record the same value. -/
theorem timeout_marker_amended (uid seq start : Nat) (events : List RecvEvent) (dur : Nat)
    (hne : events ≠ [])
    (hlast : start + PING_TIMEOUT_MSEC ≤ (events.getLast hne).1)
    (hres : pingIterationResult uid seq start PING_TIMEOUT_MSEC events = some (false, dur)) :
    timedOutClass dur = true := by
  unfold pingIterationResult at hres
  cases hrl : recvLoop uid seq (start + PING_TIMEOUT_MSEC) start events with
  | none =>
    rw [hrl] at hres
    simp at hres
  | some r =>
    rw [hrl] at hres
    obtain ⟨b, endT⟩ := r
    simp at hres
    obtain ⟨hb, hdur⟩ := hres
    rw [hb] at hrl
    have hcases := recvLoop_false_cases uid seq (start + PING_TIMEOUT_MSEC) events start endT hrl
    simp only [timedOutClass, decide_eq_true_eq]
    rcases hcases with h1 | ⟨h2, _⟩ | ⟨hne2, h4⟩
    · omega
    · exact absurd h2 hne
    · rw [h4] at hdur
      omega

/-- Witness for C6 amended: a lone errored receive returning at 2000 ms
yields a TimedOut sample whose duration 2000 carries the marker. -/
theorem timeout_marker_amended_witness : timedOutClass 2000 = true :=
  timeout_marker_amended 7 3 0 [(2000, none)] 2000 (by decide) (by decide) (by decide)

/-- Closed form of the sequence counter: after n increments it holds
n mod 2^16. -/
theorem sequenceAt_closed (n : Nat) : sequenceAt n = n % 65536 := by
  induction n with
  | zero => rfl
  | succ n ih =>
    simp only [sequenceAt, sequenceSucc, ih]
    omega

/-- C7: within one probe loop, the sequence number starts at 1 for the
first probe and increases by one per probe while below 65535; the u16
increment wraps modulo 2^16 at 65535 (probe 65536 carries 0, probe 65537
carries 1) and the loop continues — every probe has a defined sequence
number, none aborts the loop. -/
theorem sequence_number_wraps :
    sequenceAt 1 = 1 ∧
    (∀ n : Nat, sequenceAt (n + 1) = (sequenceAt n + 1) % 65536) ∧
    (∀ n : Nat, sequenceAt n < 65535 → sequenceAt (n + 1) = sequenceAt n + 1) ∧
    sequenceAt 65535 = 65535 ∧
    sequenceAt 65536 = 0 ∧
    sequenceAt 65537 = 1 := by
  refine ⟨rfl, fun n => rfl, ?_, ?_, ?_, ?_⟩
  · intro n h
    simp only [sequenceAt, sequenceSucc]
    omega
  · rw [sequenceAt_closed]
  · rw [sequenceAt_closed]
  · rw [sequenceAt_closed]

/-- Witness for C7: the first probe carries 1 (below the wrap point) and
the second carries 2. -/
theorem sequence_number_wraps_witness :
    sequenceAt 1 < 65535 ∧ sequenceAt (1 + 1) = sequenceAt 1 + 1 :=
  ⟨by decide, sequence_number_wraps.2.2.1 1 (by decide)⟩

/-- C9: at the end of every probe iteration the next probe time is
`start_time + SEC_BETWEEN_PINGS`; when it lies in the future the loop
sleeps exactly until that instant — the computed sleep duration is
non-negative, so the `to_std` conversion at that point cannot fail — and
when it is already past due the loop skips sleeping entirely. -/
theorem sleep_computation (start cur : Int) :
    (cur < nextPingTime start →
      sleepStep start cur = some (some (nextPingTime start - cur).toNat) ∧
      cur + ((nextPingTime start - cur).toNat : Int) = nextPingTime start) ∧
    (nextPingTime start ≤ cur → sleepStep start cur = none) := by
  constructor
  · intro h
    constructor
    · unfold sleepStep durationToStd
      rw [if_pos h, if_neg (by omega)]
    · have hpos : 0 ≤ nextPingTime start - cur := by omega
      rw [Int.toNat_of_nonneg hpos]
      omega
  · intro h
    unfold sleepStep
    rw [if_neg (by omega)]

/-- Witness for C9: at cur = 3 and start = 0 the probe sleeps 2 ticks and
wakes exactly at the next probe time 5; at cur = 10 it skips sleeping. -/
theorem sleep_computation_witness :
    (sleepStep 0 3 = some (some (nextPingTime 0 - 3).toNat) ∧
      (3 : Int) + ((nextPingTime 0 - 3).toNat : Int) = nextPingTime 0) ∧
    sleepStep 0 10 = none :=
  ⟨(sleep_computation 0 3).1 (by decide), (sleep_computation 0 10).2 (by decide)⟩

end NetworkMonitor
